import Mathlib

/-!
Verification of the Aralia-to-OpenPSA fault-tree converter
(`aralia.py` and `fault_tree.py`) against its specification.

The formula grammar of `aralia.py` is given by anchored regular
expressions over ASCII text.  Each regex is embedded here as a
deterministic matcher on `List Char`.  Determinism is justified because
in every pattern the character class following an identifier or a
whitespace run is disjoint from the class being repeated, so greedy
maximal-munch matching coincides with Python's backtracking semantics.
Python's `\w` is modelled as ASCII `[A-Za-z0-9_]` (the script declares
its names to be "case-sensitive ASCII only").
-/

namespace Aralia

/-- ASCII letter, the class `[a-zA-Z]` of `_NAME_SIG`. -/
def isLetterChar (c : Char) : Bool := c.isAlpha

/-- ASCII word character, the class `\w` restricted to ASCII. -/
def isWordChar (c : Char) : Bool := c.isAlpha || c.isDigit || c = '_'

/-- ASCII whitespace, the class `\s`. -/
def isSpaceChar (c : Char) : Bool :=
  c = ' ' || c = '\t' || c = '\n' || c = '\r' || c = '\x0b' || c = '\x0c'

/-- Greedy `\s*`. -/
def dropSpaces (s : List Char) : List Char := s.dropWhile isSpaceChar

/-- Python `str.strip()`: remove whitespace from both ends. -/
def strip (s : List Char) : List Char :=
  ((s.dropWhile isSpaceChar).reverse.dropWhile isSpaceChar).reverse

/-- Maximal-munch match of `\w*(-\w+)*` at the head of the input:
returns the consumed prefix and the remaining suffix.  A hyphen is
consumed only when a word character follows it (the shape `-\w+` of a
dash group), which is exactly where the regex can extend the match. -/
def takeNameTail : List Char → List Char × List Char
  | [] => ([], [])
  | [c] => if isWordChar c then ([c], []) else ([], [c])
  | c :: d :: rest =>
    if isWordChar c then
      let (t, r) := takeNameTail (d :: rest)
      (c :: t, r)
    else if c = '-' && isWordChar d then
      let (t, r) := takeNameTail rest
      (c :: d :: t, r)
    else ([], c :: d :: rest)

/-- Match of `_NAME_SIG = [a-zA-Z]\w*(-\w+)*` at the head of the input:
the consumed identifier and the remaining suffix. -/
def parseName : List Char → Option (List Char × List Char)
  | [] => none
  | c :: rest =>
    if isLetterChar c then
      let (t, r) := takeNameTail rest
      some (c :: t, r)
    else none

/-- Match of `_LITERAL = ~?[a-zA-Z]\w*(-\w+)*` at the head of the input.
With a leading `~` the name must follow (backtracking to an empty `~?`
cannot succeed, since a name never starts with `~`). -/
def parseLiteral (s : List Char) : Option (List Char × List Char) :=
  match s with
  | [] => none
  | c :: rest =>
    if c = '~' then (parseName rest).map (fun p => ('~' :: p.1, p.2))
    else parseName (c :: rest)

theorem takeNameTail_snd_length_le :
    ∀ s : List Char, (takeNameTail s).2.length ≤ s.length
  | [] => by simp [takeNameTail]
  | [c] => by by_cases h : isWordChar c <;> simp [takeNameTail, h]
  | c :: d :: rest => by
    by_cases h1 : isWordChar c
    · have ih := takeNameTail_snd_length_le (d :: rest)
      rcases htr : takeNameTail (d :: rest) with ⟨t, r⟩
      rw [htr] at ih
      dsimp only at ih
      simp [takeNameTail, h1, htr]
      simp only [List.length_cons] at ih ⊢
      omega
    · by_cases h2 : c = '-' && isWordChar d
      · have ih := takeNameTail_snd_length_le rest
        rcases htr : takeNameTail rest with ⟨t, r⟩
        rw [htr] at ih
        dsimp only at ih
        simp [takeNameTail, h1, h2, htr]
        omega
      · simp [takeNameTail, h1, h2]

theorem parseName_snd_length_lt {s t r : List Char}
    (h : parseName s = some (t, r)) : r.length < s.length := by
  match s with
  | [] => simp [parseName] at h
  | c :: rest =>
    have hle := takeNameTail_snd_length_le rest
    rcases htr : takeNameTail rest with ⟨t', r'⟩
    rw [htr] at hle
    dsimp only at hle
    by_cases hc : isLetterChar c
    · simp only [parseName, htr, hc, if_true, Option.some.injEq, Prod.mk.injEq] at h
      obtain ⟨h1, h2⟩ := h
      subst h2
      simp only [List.length_cons]
      omega
    · simp [parseName, hc] at h

theorem parseLiteral_snd_length_lt {s t r : List Char}
    (h : parseLiteral s = some (t, r)) : r.length < s.length := by
  match s with
  | [] => simp [parseLiteral] at h
  | c :: rest =>
    simp only [parseLiteral] at h
    by_cases hc : c = '~'
    · rw [if_pos hc] at h
      simp only [Option.map_eq_some'] at h
      obtain ⟨⟨t', r'⟩, hp, he⟩ := h
      cases he
      exact Nat.lt_trans (parseName_snd_length_lt hp) (by simp)
    · rw [if_neg hc] at h
      exact parseName_snd_length_lt h

theorem dropSpaces_length_le (s : List Char) :
    (dropSpaces s).length ≤ s.length :=
  (List.dropWhile_suffix _).sublist.length_le

/-- Not an opening or closing parenthesis (the class `[^()]`). -/
def isNonParen (c : Char) : Bool := !(c = '(' || c = ')')

/-- Anchored match of `_RE_PAREN = \(([^()]+)\)$` against the whole line
(`re.match` anchors at the start, `$` at the end): the line is one pair
of parentheses around a nonempty run of non-parenthesis characters.
Returns the captured group. -/
def matchParen (s : List Char) : Option (List Char) :=
  match s with
  | [] => none
  | c :: rest =>
    if c = '(' then
      let body := rest.takeWhile isNonParen
      let r := rest.dropWhile isNonParen
      if body ≠ [] && r = [')'] then some body else none
    else none

/-- The tail `(\s*SEP\s*LIT\s*)*$` of `_RE_AND` / `_RE_OR`, matched
greedily; returns the list of literal tokens of the iterations.
The trailing `\s*` of one iteration and the leading `\s*` of the next
are merged: both are whitespace runs before a non-whitespace mark.
The `Nat` argument is structural-recursion fuel; each iteration of the
regex consumes at least the separator character, so an initial fuel of
`s.length + 1` (supplied by `repSepRest`) never runs out. -/
def repSepRestF (sep : Char) : Nat → List Char → Option (List (List Char))
  | 0, _ => none
  | fu + 1, s =>
    match dropSpaces s with
    | [] => some []
    | c :: rest =>
      if c = sep then
        match parseLiteral (dropSpaces rest) with
        | some (tok, r) => (repSepRestF sep fu r).map (fun ts => tok :: ts)
        | none => none
      else none

/-- The tail loop of `_RE_AND` / `_RE_OR` with adequate fuel. -/
def repSepRest (sep : Char) (s : List Char) : Option (List (List Char)) :=
  repSepRestF sep (s.length + 1) s

/-- Anchored match of `_RE_AND` / `_RE_OR`:
`(LIT(\s*SEP\s*LIT\s*)+)$` — at least two literals joined by `sep`.
Returns the literal tokens in order.  This list equals what
`get_arguments` recovers by splitting the captured group on the
separator and stripping, since a literal can contain neither the
separator nor whitespace. -/
def matchRepSep (sep : Char) (s : List Char) : Option (List (List Char)) :=
  match parseLiteral s with
  | some (tok, r) =>
    match repSepRest sep r with
    | some toks => if toks.length ≥ 1 then some (tok :: toks) else none
    | none => none
  | none => none

/-- Match a fixed character sequence at the head of the input. -/
def stripPrefixSeq : List Char → List Char → Option (List Char)
  | [], s => some s
  | c :: cs, d :: s => if c = d then stripPrefixSeq cs s else none
  | _ :: _, [] => none

/-- Anchored match of the two-literal patterns `_RE_XOR` (`sep = "^"`),
`_RE_IMPLY` (`sep = "=>"`), `_RE_IFF` (`sep = "<=>"`):
`(LIT\s*SEP\s*LIT)$`.  Returns the two literal tokens. -/
def matchPairSep (sep : List Char) (s : List Char) : Option (List Char × List Char) :=
  match parseLiteral s with
  | some (t1, r) =>
    match stripPrefixSeq sep (dropSpaces r) with
    | some r2 =>
      match parseLiteral (dropSpaces r2) with
      | some (t2, r3) => if r3 = [] then some (t1, t2) else none
      | none => none
    | none => none
  | none => none

/-- Anchored match of `_RE_NOT = ~\(\s*(LIT)\s*\)$`. -/
def matchNotGate (s : List Char) : Option (List Char) :=
  match s with
  | '~' :: '(' :: rest =>
    match parseLiteral (dropSpaces rest) with
    | some (t, r) => if dropSpaces r = [')'] then some t else none
    | none => none
  | _ => none

/-- Anchored match of `_RE_NULL = (LIT)$`. -/
def matchNullGate (s : List Char) : Option (List Char) :=
  match parseLiteral s with
  | some (t, r) => if r = [] then some t else none
  | none => none

/-- The tail `(\s*,\s*LIT\s*)*` of `_ARGS_LIST` up to the closing `]`:
returns the iteration tokens and the suffix after the `]`.  The `Nat`
argument is structural-recursion fuel as in `repSepRestF`. -/
def argsListRestF : Nat → List Char → Option (List (List Char) × List Char)
  | 0, _ => none
  | fu + 1, s =>
    match dropSpaces s with
    | ',' :: rest =>
      match parseLiteral (dropSpaces rest) with
      | some (tok, r) => (argsListRestF fu r).map (fun p => (tok :: p.1, p.2))
      | none => none
    | ']' :: rest => some ([], rest)
    | _ => none

/-- The tail loop of `_ARGS_LIST` with adequate fuel. -/
def argsListRest (s : List Char) : Option (List (List Char) × List Char) :=
  argsListRestF (s.length + 1) s

/-- Match of `_ARGS_LIST = \[(\s*LIT(\s*,\s*LIT\s*){2,})\]` at the head
of the input: a bracketed list of at least three comma-separated
literals.  Returns the tokens and the suffix after `]`. -/
def matchArgsList (s : List Char) : Option (List (List Char) × List Char) :=
  match s with
  | '[' :: rest =>
    match parseLiteral (dropSpaces rest) with
    | some (tok, r) =>
      match argsListRest r with
      | some (toks, rem) =>
        if toks.length ≥ 2 then some (tok :: toks, rem) else none
      | none => none
    | none => none
  | _ => none

/-- The digit class `[2-9]` of `_RE_ATLEAST`. -/
def isAtleastDigit (c : Char) : Bool :=
  c ∈ ['2', '3', '4', '5', '6', '7', '8', '9']

/-- The digit class `\d` of `_RE_CARDINALITY` (ASCII). -/
def isDigitChar (c : Char) : Bool :=
  c ∈ ['0', '1', '2', '3', '4', '5', '6', '7', '8', '9']

/-- Python `int` of a digit character. -/
def digitVal (c : Char) : Nat := c.toNat - '0'.toNat

/-- Anchored match of
`_RE_ATLEAST = @\(\s*([2-9])\s*,\s*ARGS_LIST\s*\)\s*$`.
Returns the k parameter and the argument tokens. -/
def matchAtleast (s : List Char) : Option (Nat × List (List Char)) :=
  match s with
  | '@' :: '(' :: rest =>
    match dropSpaces rest with
    | d :: r1 =>
      if isAtleastDigit d then
        match dropSpaces r1 with
        | ',' :: r2 =>
          match matchArgsList (dropSpaces r2) with
          | some (toks, rem) =>
            match dropSpaces rem with
            | ')' :: r3 => if dropSpaces r3 = [] then some (digitVal d, toks) else none
            | _ => none
          | none => none
        | _ => none
      else none
    | [] => none
  | _ => none

/-- Anchored match of
`_RE_CARDINALITY = #\(\s*(\d)\s*,\s*(\d)\s*,\s*ARGS_LIST\s*\)\s*$`.
Returns the min and max parameters and the argument tokens. -/
def matchCardinality (s : List Char) : Option (Nat × Nat × List (List Char)) :=
  match s with
  | '#' :: '(' :: rest =>
    match dropSpaces rest with
    | d1 :: r1 =>
      if isDigitChar d1 then
        match dropSpaces r1 with
        | ',' :: r2 =>
          match dropSpaces r2 with
          | d2 :: r3 =>
            if isDigitChar d2 then
              match dropSpaces r3 with
              | ',' :: r4 =>
                match matchArgsList (dropSpaces r4) with
                | some (toks, rem) =>
                  match dropSpaces rem with
                  | ')' :: r5 =>
                    if dropSpaces r5 = [] then some (digitVal d1, digitVal d2, toks)
                    else none
                  | _ => none
                | none => none
              | _ => none
            else none
          | [] => none
        | _ => none
      else none
    | [] => none
  | _ => none

/-- Result of `get_formula`: the returned tuple, or the raised
exception (`FaultTreeError` for structural problems, `ParsingError`
for recognition failure). -/
inductive GFResult where
  | ok (op : String) (args : List (List Char)) (minNum maxNum : Option Nat)
  | faultTreeError (msg : String)
  | parsingError (msg : String)
deriving DecidableEq

/-- `get_arguments`: the tokens of a formula with the repeated-argument
check (`len(arguments) > len(set(arguments))` raises `FaultTreeError`).
The matchers already deliver the split and stripped tokens; the raised
message carries the argument text, modelled as the joined tokens. -/
def get_arguments (toks : List (List Char)) : Except String (List (List Char)) :=
  if toks.Nodup then .ok toks
  else .error ("Repeated arguments:\n" ++ String.intercalate " " (toks.map String.mk))

/-- Helper building a `GFResult` from matched tokens after the
duplicate check of `get_arguments`. -/
def argsResult (op : String) (toks : List (List Char)) (mn mx : Option Nat) : GFResult :=
  match get_arguments toks with
  | .ok args => .ok op args mn mx
  | .error m => .faultTreeError m

/-- The preprocessing of `get_formula`: `line.strip()` followed by the
`_RE_PAREN` redundant-parenthesis strip (the stripped group is itself
stripped). -/
def preprocessed (line0 : List Char) : List Char :=
  let l1 := strip line0
  match matchParen l1 with
  | some inner => strip inner
  | none => l1

/-- Body of `get_formula` on the already-stripped, paren-stripped line. -/
def get_formula_core (line : List Char) : GFResult :=
  match matchRepSep '|' line with
  | some toks => argsResult "or" toks none none
  | none =>
  match matchPairSep ['^'] line with
  | some (a, b) => argsResult "xor" [a, b] none none
  | none =>
  match matchRepSep '&' line with
  | some toks => argsResult "and" toks none none
  | none =>
  match matchAtleast line with
  | some (k, toks) =>
    match get_arguments toks with
    | .error m => .faultTreeError m
    | .ok args =>
      if k ≥ args.length then
        .faultTreeError ("Invalid k/n for the combination formula:\n" ++ String.mk line)
      else .ok "atleast" args (some k) none
  | none =>
  match matchNotGate line with
  | some t => .ok "not" [t] none none
  | none =>
  match matchNullGate line with
  | some t => .ok "null" [t] none none
  | none =>
  match matchPairSep ['=', '>'] line with
  | some (a, b) => argsResult "imply" [a, b] none none
  | none =>
  match matchPairSep ['<', '=', '>'] line with
  | some (a, b) => argsResult "iff" [a, b] none none
  | none =>
  match matchCardinality line with
  | some (mn, mx, toks) =>
    match get_arguments toks with
    | .error m => .faultTreeError m
    | .ok args =>
      if mn > mx || mx > args.length then
        .faultTreeError ("Invalid l/h for the cardinality formula:\n" ++ String.mk line)
      else .ok "cardinality" args (some mn) (some mx)
  | none =>
  .parsingError ("Cannot interpret the formula:\n" ++ String.mk line)

/-- `get_formula` of `aralia.py`: strip the line, strip one redundant
parenthesis pair (`_RE_PAREN`), then try the nine gate patterns in the
source's order (OR, XOR, AND, ATLEAST, NOT, NULL, IMPLY, IFF,
CARDINALITY); ATLEAST and CARDINALITY additionally validate their
numeric parameters against the argument count, raising
`FaultTreeError`; no match raises `ParsingError`. -/
def get_formula (line0 : List Char) : GFResult :=
  get_formula_core (preprocessed line0)

theorem parseName_none_of_head {c : Char} {r : List Char}
    (h : isLetterChar c = false) : parseName (c :: r) = none := by
  simp [parseName, h]

theorem parseLiteral_none_of_head {c : Char} {r : List Char}
    (h1 : isLetterChar c = false) (h2 : ¬ c = '~') :
    parseLiteral (c :: r) = none := by
  simp [parseLiteral, if_neg h2, parseName_none_of_head h1]

theorem matchRepSep_none_of_head {sep c : Char} {r : List Char}
    (h1 : isLetterChar c = false) (h2 : ¬ c = '~') :
    matchRepSep sep (c :: r) = none := by
  simp [matchRepSep, parseLiteral_none_of_head h1 h2]

theorem matchPairSep_none_of_head {sep : List Char} {c : Char} {r : List Char}
    (h1 : isLetterChar c = false) (h2 : ¬ c = '~') :
    matchPairSep sep (c :: r) = none := by
  simp [matchPairSep, parseLiteral_none_of_head h1 h2]

theorem matchAtleast_shape {s : List Char} {p : Nat × List (List Char)}
    (h : matchAtleast s = some p) : ∃ rest, s = '@' :: '(' :: rest := by
  unfold matchAtleast at h
  split at h
  · next rest => exact ⟨rest, rfl⟩
  · exact absurd h (by simp)

/-- Content of the C7 claim: for any input line whose preprocessed form
matches the AT-LEAST shape with parameter `k` and (distinct) argument
tokens, `get_formula` raises a `FaultTreeError` naming that line
exactly when `k` is not strictly below the argument count, and
otherwise succeeds with operator `atleast` and min number `k`. -/
theorem get_formula_atleast {line0 : List Char} {k : Nat} {toks : List (List Char)}
    (hm : matchAtleast (preprocessed line0) = some (k, toks)) (hnd : toks.Nodup) :
    get_formula line0 =
      if k ≥ toks.length then
        .faultTreeError
          ("Invalid k/n for the combination formula:\n" ++ String.mk (preprocessed line0))
      else .ok "atleast" toks (some k) none := by
  obtain ⟨rest, hshape⟩ := matchAtleast_shape hm
  unfold get_formula get_formula_core
  rw [hshape] at hm ⊢
  rw [matchRepSep_none_of_head (by decide) (by decide),
      matchPairSep_none_of_head (by decide) (by decide),
      matchRepSep_none_of_head (by decide) (by decide), hm]
  simp [get_arguments, if_pos hnd]

theorem matchArgsList_length {s : List Char} {toks : List (List Char)} {rem : List Char}
    (h : matchArgsList s = some (toks, rem)) : 3 ≤ toks.length := by
  unfold matchArgsList at h
  split at h
  · split at h
    · split at h
      · split at h
        · next hlen =>
          simp only [Option.some.injEq, Prod.mk.injEq] at h
          obtain ⟨h1, h2⟩ := h
          subst h1
          simp only [List.length_cons]
          omega
        · exact absurd h (by simp)
      · exact absurd h (by simp)
    · exact absurd h (by simp)
  · exact absurd h (by simp)

theorem isAtleastDigit_val {d : Char} (h : isAtleastDigit d = true) :
    2 ≤ digitVal d ∧ digitVal d ≤ 9 := by
  simp only [isAtleastDigit, List.mem_cons, decide_eq_true_eq,
    List.mem_singleton, List.not_mem_nil, or_false] at h
  rcases h with h | h | h | h | h | h | h | h <;> subst h <;> decide

theorem isDigitChar_val {d : Char} (h : isDigitChar d = true) :
    digitVal d ≤ 9 := by
  simp only [isDigitChar, List.mem_cons, decide_eq_true_eq,
    List.mem_singleton, List.not_mem_nil, or_false] at h
  rcases h with h | h | h | h | h | h | h | h | h | h <;> subst h <;> decide

/-- Content of the C10 claim for the AT-LEAST shape: recognition forces
a single-digit k between 2 and 9 and at least three list arguments. -/
theorem matchAtleast_bounds {s : List Char} {k : Nat} {toks : List (List Char)}
    (h : matchAtleast s = some (k, toks)) :
    2 ≤ k ∧ k ≤ 9 ∧ 3 ≤ toks.length := by
  unfold matchAtleast at h
  split at h
  · split at h
    · split at h
      · next hd =>
        split at h
        · split at h
          · next hargs =>
            split at h
            · split at h
              · simp only [Option.some.injEq, Prod.mk.injEq] at h
                obtain ⟨h1, h2⟩ := h
                subst h1; subst h2
                obtain ⟨hl, hr⟩ := isAtleastDigit_val hd
                exact ⟨hl, hr, matchArgsList_length hargs⟩
              · exact absurd h (by simp)
            · exact absurd h (by simp)
          · exact absurd h (by simp)
        · exact absurd h (by simp)
      · exact absurd h (by simp)
    · exact absurd h (by simp)
  · exact absurd h (by simp)

/-- Content of the C10 claim for the CARDINALITY shape: recognition
forces single-digit bounds and at least three list arguments. -/
theorem matchCardinality_bounds {s : List Char} {mn mx : Nat} {toks : List (List Char)}
    (h : matchCardinality s = some (mn, mx, toks)) :
    mn ≤ 9 ∧ mx ≤ 9 ∧ 3 ≤ toks.length := by
  unfold matchCardinality at h
  split at h
  · split at h
    · split at h
      · next hd1 =>
        split at h
        · split at h
          · split at h
            · next hd2 =>
              split at h
              · split at h
                · next hargs =>
                  split at h
                  · split at h
                    · simp only [Option.some.injEq, Prod.mk.injEq] at h
                      obtain ⟨h1, h2, h3⟩ := h
                      subst h1; subst h2; subst h3
                      exact ⟨isDigitChar_val hd1, isDigitChar_val hd2,
                        matchArgsList_length hargs⟩
                    · exact absurd h (by simp)
                  · exact absurd h (by simp)
                · exact absurd h (by simp)
              · exact absurd h (by simp)
            · exact absurd h (by simp)
          · exact absurd h (by simp)
        · exact absurd h (by simp)
      · exact absurd h (by simp)
    · exact absurd h (by simp)
  · exact absurd h (by simp)

theorem takeWhile_all_append {p : Char → Bool} :
    ∀ (l : List Char) (x : Char) (t : List Char),
      (∀ c ∈ l, p c = true) → p x = false →
      (l ++ x :: t).takeWhile p = l ∧ (l ++ x :: t).dropWhile p = x :: t
  | [], x, t, _, hx => by simp [List.takeWhile, List.dropWhile, hx]
  | c :: l, x, t, hl, hx => by
    have hc : p c = true := hl c (by simp)
    have ih := takeWhile_all_append l x t (fun d hd => hl d (by simp [hd])) hx
    simp [List.takeWhile, List.dropWhile, hc, ih.1, ih.2]

/-- Content of the C9 claim: `_RE_PAREN` matches (and so `get_formula`
strips one pair) exactly when the whole line is a single pair of
parentheses around a nonempty parenthesis-free body. -/
theorem matchParen_iff {s body : List Char} :
    matchParen s = some body ↔
      s = '(' :: (body ++ [')']) ∧ body ≠ [] ∧ ∀ c ∈ body, isNonParen c = true := by
  constructor
  · intro h
    match s with
    | [] => simp [matchParen] at h
    | c :: rest =>
      simp only [matchParen] at h
      by_cases hc : c = '('
      · rw [if_pos hc] at h
        subst hc
        by_cases hcond : rest.takeWhile isNonParen ≠ [] ∧ rest.dropWhile isNonParen = [')']
        · rw [if_pos (by simpa using hcond)] at h
          simp only [Option.some.injEq] at h
          subst h
          refine ⟨?_, hcond.1, fun c hc => List.mem_takeWhile_imp hc⟩
          have heq : rest.takeWhile isNonParen ++ rest.dropWhile isNonParen = rest :=
            List.takeWhile_append_dropWhile isNonParen rest
          rw [hcond.2] at heq
          rw [heq]
        · rw [if_neg (by simpa using hcond)] at h
          exact absurd h (by simp)
      · rw [if_neg hc] at h
        exact absurd h (by simp)
  · rintro ⟨hs, hne, hall⟩
    subst hs
    have h2 := takeWhile_all_append body ')' [] hall (by decide)
    simp only [matchParen, if_pos rfl, h2.1, h2.2]
    simp [hne]

/-- Full anchored match of `_RE_FT_NAME = ^([a-zA-Z]\w*(-\w+)*)$`: the
shared name-validator grammar `_NAME_SIG` applied to a whole string. -/
def nameSigFull (s : List Char) : Bool :=
  match parseName s with
  | some (_, r) => r.isEmpty
  | none => false

/-- The C8 claim's description of an accepted name, stated from the
spec's words: starts with a letter; every character is a word character
or a hyphen (hence no periods and no whitespace); no two consecutive
hyphens; no trailing hyphen. -/
def SpecName (s : List Char) : Prop :=
  (∃ c rest, s = c :: rest ∧ isLetterChar c = true) ∧
  (∀ d ∈ s, isWordChar d = true ∨ d = '-') ∧
  List.Chain' (fun a b => ¬(a = '-' ∧ b = '-')) s ∧
  s.getLast? ≠ some '-'

/-- What `_NAME_SIG`'s tail `\w*(-\w+)*` accepts in full, in the flat
terms of the spec. -/
def TailOk (s : List Char) : Prop :=
  (∀ d ∈ s, isWordChar d = true ∨ d = '-') ∧
  List.Chain' (fun a b => ¬(a = '-' ∧ b = '-')) s ∧
  s.getLast? ≠ some '-'

theorem word_ne_dash {c : Char} (h : isWordChar c = true) : c ≠ '-' := by
  intro he
  subst he
  exact absurd h (by decide)

theorem letter_word {c : Char} (h : isLetterChar c = true) : isWordChar c = true := by
  simp only [isLetterChar] at h
  simp [isWordChar, h]

theorem takeNameTail_empty_iff : ∀ s : List Char, (takeNameTail s).2 = [] ↔ TailOk s
  | [] => by simp [takeNameTail, TailOk]
  | [c] => by
    by_cases h : isWordChar c
    · simp only [takeNameTail, h, if_true, TailOk]
      constructor
      · intro _
        refine ⟨fun d hd => ?_, List.chain'_singleton c, ?_⟩
        · simp only [List.mem_singleton] at hd
          subst hd
          exact Or.inl h
        · simp only [List.getLast?_singleton]
          exact fun hco => word_ne_dash h (Option.some.inj hco)
      · intro _
        trivial
    · simp only [takeNameTail, h, if_false, TailOk]
      constructor
      · intro hcon
        exact absurd hcon (by simp)
      · rintro ⟨hall, _, hlast⟩
        by_cases hd : c = '-'
        · subst hd
          simp at hlast
        · rcases hall c (by simp) with hw | hw
          · exact absurd hw h
          · exact absurd hw hd
  | c :: d :: rest => by
    have ih1 := takeNameTail_empty_iff (d :: rest)
    have ih2 := takeNameTail_empty_iff rest
    by_cases h1 : isWordChar c
    · rcases htr : takeNameTail (d :: rest) with ⟨t, r⟩
      rw [htr] at ih1
      dsimp only at ih1
      have hstep : (takeNameTail (c :: d :: rest)).2 = r := by
        simp [takeNameTail, h1, htr]
      rw [hstep, ih1]
      have hcne := word_ne_dash h1
      constructor
      · rintro ⟨hall, hch, hlast⟩
        refine ⟨fun e he => ?_, ?_, ?_⟩
        · rcases List.mem_cons.mp he with he | he
          · subst he; exact Or.inl h1
          · exact hall e he
        · rw [List.chain'_cons]
          exact ⟨fun hco => hcne hco.1, hch⟩
        · rwa [List.getLast?_cons_cons]
      · rintro ⟨hall, hch, hlast⟩
        refine ⟨fun e he => hall e (List.mem_cons_of_mem c he), ?_, ?_⟩
        · exact (List.chain'_cons.mp hch).2
        · rwa [List.getLast?_cons_cons] at hlast
    · by_cases h2 : c = '-' ∧ isWordChar d = true
      · obtain ⟨hc, hd⟩ := h2
        subst hc
        rcases htr : takeNameTail rest with ⟨t, r⟩
        rw [htr] at ih2
        dsimp only at ih2
        have hstep : (takeNameTail ('-' :: d :: rest)).2 = r := by
          simp [takeNameTail, h1, hd, htr]
        rw [hstep, ih2]
        have hdne := word_ne_dash hd
        constructor
        · rintro ⟨hall, hch, hlast⟩
          refine ⟨fun e he => ?_, ?_, ?_⟩
          · rcases List.mem_cons.mp he with he | he
            · subst he; exact Or.inr rfl
            · rcases List.mem_cons.mp he with he | he
              · subst he; exact Or.inl hd
              · exact hall e he
          · rw [List.chain'_cons, List.chain'_cons']
            exact ⟨fun hco => hdne hco.2, fun b _ hco => hdne hco.1, hch⟩
          · rw [List.getLast?_cons_cons]
            cases rest with
            | nil =>
              simp only [List.getLast?_singleton]
              exact fun hco => hdne (Option.some.inj hco)
            | cons x xs => rwa [List.getLast?_cons_cons]
        · rintro ⟨hall, hch, hlast⟩
          refine ⟨fun e he =>
              hall e (List.mem_cons_of_mem _ (List.mem_cons_of_mem _ he)), ?_, ?_⟩
          · exact (List.chain'_cons'.mp (List.chain'_cons.mp hch).2).2
          · cases rest with
            | nil => simp
            | cons x xs =>
              rw [List.getLast?_cons_cons, List.getLast?_cons_cons] at hlast
              exact hlast
      · have hc2 : ¬ ((decide (c = '-') && isWordChar d) = true) := by
          intro hco
          rw [Bool.and_eq_true, decide_eq_true_eq] at hco
          exact h2 hco
        have hstep : (takeNameTail (c :: d :: rest)).2 = c :: d :: rest := by
          simp [takeNameTail, h1, hc2]
        rw [hstep]
        constructor
        · intro hcon
          exact absurd hcon (by simp)
        · rintro ⟨hall, hch, hlast⟩
          by_cases hc : c = '-'
          · subst hc
            by_cases hdd : d = '-'
            · subst hdd
              rw [List.chain'_cons] at hch
              exact (hch.1 ⟨rfl, rfl⟩).elim
            · rcases hall d (by simp) with hw | hw
              · exact (h2 ⟨rfl, hw⟩).elim
              · exact (hdd hw).elim
          · rcases hall c (by simp) with hw | hw
            · exact (h1 hw).elim
            · exact (hc hw).elim

theorem nameSigFull_iff_SpecName (s : List Char) :
    nameSigFull s = true ↔ SpecName s := by
  match s with
  | [] =>
    simp [nameSigFull, parseName, SpecName]
  | c :: rest =>
    by_cases hc : isLetterChar c
    · rcases htr : takeNameTail rest with ⟨t, r⟩
      have hiff := takeNameTail_empty_iff rest
      rw [htr] at hiff
      dsimp only at hiff
      have hfull : nameSigFull (c :: rest) = r.isEmpty := by
        simp [nameSigFull, parseName, hc, htr]
      rw [hfull, List.isEmpty_iff, hiff]
      constructor
      · rintro ⟨hall, hch, hlast⟩
        refine ⟨⟨c, rest, rfl, hc⟩, fun d hd => ?_, ?_, ?_⟩
        · rcases List.mem_cons.mp hd with hd | hd
          · subst hd; exact Or.inl (letter_word hc)
          · exact hall d hd
        · rw [List.chain'_cons']
          exact ⟨fun b _ hco => word_ne_dash (letter_word hc) hco.1, hch⟩
        · cases rest with
          | nil =>
            simp only [List.getLast?_singleton]
            exact fun hco => word_ne_dash (letter_word hc) (Option.some.inj hco)
          | cons x xs => rwa [List.getLast?_cons_cons]
      · rintro ⟨_, hall, hch, hlast⟩
        refine ⟨fun d hd => hall d (List.mem_cons_of_mem c hd), ?_, ?_⟩
        · exact (List.chain'_cons'.mp hch).2
        · cases rest with
          | nil => simp
          | cons x xs => rwa [List.getLast?_cons_cons] at hlast
    · have hfull : nameSigFull (c :: rest) = false := by
        simp [nameSigFull, parseName, hc]
      rw [hfull]
      simp only [Bool.false_eq_true, false_iff]
      rintro ⟨⟨c', rest', heq, hlet⟩, _⟩
      injection heq with h1 h2
      exact hc (h1 ▸ hlet)

/-! ### Graph algorithms of `fault_tree.py` and `aralia.py`

Gates are identified by their (globally unique) names.  The traversal
mark `Gate.mark` takes Python values `None` (set by `Gate.__init__`),
`""` (set by `toposort_gates` at its start), `"temp"` and `"perm"`;
the first two are falsy, so both count as unvisited.  Gate argument
sets are enumerated in some order; none of the proved properties
depends on which. -/

/-- The four values `Gate.mark` takes. -/
inductive Mark where
  | mnone
  | mempty
  | temp
  | perm
deriving DecidableEq

/-- Python truthiness of a mark: `not gate.mark` holds for `None` and
`""`, the unvisited states. -/
def Mark.unvisited : Mark → Bool
  | .mnone => true
  | .mempty => true
  | .temp => false
  | .perm => false

/-- The mark state of all gates, by gate name. -/
def Marks : Type := String → Mark

/-- Write one gate's mark. -/
def setMark (m : Marks) (g : String) (v : Mark) : Marks :=
  fun x => if x = g then v else m x

/-- `LateBindingFaultTree.__visit` together with its
`for child in gate.g_arguments` loop, merged into one fuel-indexed
function so that the recursion is structural (kernel-evaluable):
`.inl g` is the call `__visit(g)`, `.inr cs` the loop over the
remaining children.  Returns the (reversed) cycle path if one is
found, together with the updated marks; `none` models fuel exhaustion,
which cannot occur when `fuel` exceeds the call depth. -/
def cycleVisit (gArgs : String → List String) :
    Nat → String ⊕ List String → Marks → Option (Option (List String) × Marks)
  | 0, _, _ => none
  | fu + 1, .inl g, m =>
    if (m g).unvisited then
      match cycleVisit gArgs fu (.inr (gArgs g)) (setMark m g .temp) with
      | none => none
      | some (some cyc, m2) => some (some (cyc ++ [g]), m2)
      | some (none, m2) => some (none, setMark m2 g .perm)
    else if m g = .temp then some (some [g], m)
    else some (none, m)
  | _ + 1, .inr [], m => some (none, m)
  | fu + 1, .inr (c :: rest), m =>
    match cycleVisit gArgs fu (.inl c) m with
    | none => none
    | some (some cyc, m2) => some (some cyc, m2)
    | some (none, m2) => cycleVisit gArgs fu (.inr rest) m2

/-- `LateBindingFaultTree.__visit` on one gate. -/
def visitCycle (fuel : Nat) (gArgs : String → List String) (g : String) (m : Marks) :
    Option (Option (List String) × Marks) :=
  cycleVisit gArgs fuel (.inl g) m

/-- Python `str` of a list of strings, as used in the error messages. -/
def pyStrList (xs : List String) : String :=
  "[" ++ String.intercalate ", " (xs.map (fun s => "'" ++ s ++ "'")) ++ "]"

/-- `LateBindingFaultTree.__raise_cycle`: the message of the raised
`FaultTreeError`.  `cycle` is the path in reverse order; the printed
path starts at the first occurrence of the repeated gate. -/
def raiseCycleMsg (cycle : List String) : String :=
  let start := cycle.headD ""
  let rev := cycle.reverse
  "Detected a cycle: " ++ String.intercalate "->" (rev.drop (rev.indexOf start))

/-- The `for top_gate in self.top_gates` loop of `__detect_cycle`:
visit each top gate, raising `__raise_cycle` on the first cycle.
Returns the raised message or the final marks. -/
def detectCycleTops (fuel : Nat) (gArgs : String → List String) :
    List String → Marks → Option (Except String Marks)
  | [], m => some (.ok m)
  | t :: rest, m =>
    match visitCycle fuel gArgs t m with
    | none => none
    | some (some cyc, _) => some (.error (raiseCycleMsg cyc))
    | some (none, m2) => detectCycleTops fuel gArgs rest m2

/-- The `for gate in detached_gates` loop of `__detect_cycle`: re-run
the DFS from each detached gate; the first discovered cycle raises,
which the enclosing `except` converts into the aggregated error.  If no
cycle is found the loop falls through and `__detect_cycle` returns
normally (raising nothing). -/
def detectCycleDetached (fuel : Nat) (gArgs : String → List String) (baseMsg : String) :
    List String → Marks → Option (Except String Marks)
  | [], m => some (.ok m)
  | g :: rest, m =>
    match visitCycle fuel gArgs g m with
    | none => none
    | some (some cyc, _) => some (.error (baseMsg ++ "\n" ++ raiseCycleMsg cyc))
    | some (none, m2) => detectCycleDetached fuel gArgs baseMsg rest m2

/-- `LateBindingFaultTree.__detect_cycle`: DFS from every top gate,
then the detached-gates pass.  `gates` is `self.gates` in declaration
order.  Returns the raised `FaultTreeError` message, or the final marks
on normal return. -/
def detect_cycle (fuel : Nat) (gates : List String) (gArgs : String → List String)
    (tops : List String) (m0 : Marks) : Option (Except String Marks) :=
  match detectCycleTops fuel gArgs tops m0 with
  | none => none
  | some (.error e) => some (.error e)
  | some (.ok m1) =>
    let detached := gates.filter (fun g => (m1 g).unvisited)
    if detached.isEmpty then some (.ok m1)
    else
      let baseMsg := "Detected detached gates that may be in a cycle\n" ++ pyStrList detached
      detectCycleDetached fuel gArgs baseMsg detached m1

/-- The recursive `visit` of `toposort_gates` together with its
`for arg in gate.g_arguments` loop, merged into one fuel-indexed
function so that the recursion is structural (kernel-evaluable):
`.inl g` is the call `visit(gate)`, `.inr cs` the loop over the
remaining gate arguments.  The gate is prepended to the accumulated
deque after its gate arguments are visited.  `none` models the
`assert gate.mark != "temp"` failure as well as fuel exhaustion. -/
def topoVisit (gArgs : String → List String) :
    Nat → String ⊕ List String → Marks → List String → Option (Marks × List String)
  | 0, _, _, _ => none
  | fu + 1, .inl g, m, acc =>
    if m g = .temp then none
    else if (m g).unvisited then
      match topoVisit gArgs fu (.inr (gArgs g)) (setMark m g .temp) acc with
      | none => none
      | some (m2, acc2) => some (setMark m2 g .perm, g :: acc2)
    else some (m, acc)
  | _ + 1, .inr [], m, acc => some (m, acc)
  | fu + 1, .inr (c :: rest), m, acc =>
    match topoVisit gArgs fu (.inl c) m acc with
    | none => none
    | some (m2, acc2) => topoVisit gArgs fu (.inr rest) m2 acc2

/-- The `visit` of `toposort_gates` on one root gate. -/
def visitTopo (fuel : Nat) (gArgs : String → List String) (g : String) (m : Marks)
    (acc : List String) : Option (Marks × List String) :=
  topoVisit gArgs fuel (.inl g) m acc

/-- The `for root_gate in root_gates` loop of `toposort_gates`. -/
def visitTopoRoots (fuel : Nat) (gArgs : String → List String) :
    List String → Marks → List String → Option (Marks × List String)
  | [], m, acc => some (m, acc)
  | rt :: rest, m, acc =>
    match visitTopo fuel gArgs rt m acc with
    | none => none
    | some (m2, acc2) => visitTopoRoots fuel gArgs rest m2 acc2

/-- `toposort_gates` of `fault_tree.py`: set every gate's mark to `""`,
DFS from each root prepending finished gates to the deque, assert that
every gate was emitted, and reset every gate's mark to `None`.
Returns the emitted order (the deque read left to right) and the final
marks; `none` models a failed assertion or fuel exhaustion. -/
def toposort_gates (fuel : Nat) (roots gates : List String)
    (gArgs : String → List String) (m0 : Marks) : Option (List String × Marks) :=
  let m1 := gates.foldl (fun m g => setMark m g .mempty) m0
  match visitTopoRoots fuel gArgs roots m1 [] with
  | none => none
  | some (m2, acc) =>
    if acc.length = gates.length then
      some (acc, gates.foldl (fun m g => setMark m g .mnone) m2)
    else none

/-! ### The two-pass symbol table and `populate` of `aralia.py` -/

/-- A gate as declared in pass 1 (`LateBindingGate`): operator data and
the raw argument tokens (`event_arguments`). -/
structure GateDecl where
  name : String
  operator : String
  min_num : Option Nat := none
  max_num : Option Nat := none
  event_arguments : List String := []
deriving DecidableEq

/-- `LateBindingFaultTree` after pass 1, with the flags that
`parse_input` sets.  The name-keyed dictionaries `__gates`,
`__basic_events`, `__house_events` coincide with lookups in these
declaration-ordered lists because `__check_redefinition` keeps names
unique. -/
structure FTState where
  name : Option String := none
  multi_top : Bool := false
  gates : List GateDecl := []
  basic_events : List (String × String) := []
  house_events : List (String × String) := []
deriving DecidableEq

/-- The three exception classes of `aralia.py` that abort a
conversion. -/
inductive ErrKind where
  | parsing
  | format
  | faultTree
deriving DecidableEq

/-- A raised error: its class and its message. -/
structure ConvError where
  kind : ErrKind
  msg : String
deriving DecidableEq

/-- `__check_redefinition`: the name is already a basic event, gate or
house event. -/
def nameDefined (ft : FTState) (nm : String) : Bool :=
  ft.basic_events.any (fun p => p.1 = nm) || ft.gates.any (fun g => g.name = nm) ||
    ft.house_events.any (fun p => p.1 = nm)

/-- `add_gate`: redefinition check, then append the late-binding gate
with its raw argument tokens. -/
def add_gate (ft : FTState) (nm op : String) (args : List String)
    (mn mx : Option Nat) : Except ConvError FTState :=
  if nameDefined ft nm then .error ⟨.faultTree, "Redefinition of an event: " ++ nm⟩
  else .ok { ft with gates := ft.gates ++ [⟨nm, op, mn, mx, args⟩] }

/-- `add_basic_event`: redefinition check, then append. -/
def add_basic_event (ft : FTState) (nm prob : String) : Except ConvError FTState :=
  if nameDefined ft nm then .error ⟨.faultTree, "Redefinition of an event: " ++ nm⟩
  else .ok { ft with basic_events := ft.basic_events ++ [(nm, prob)] }

/-- `add_house_event`: redefinition check, then append. -/
def add_house_event (ft : FTState) (nm state : String) : Except ConvError FTState :=
  if nameDefined ft nm then .error ⟨.faultTree, "Redefinition of an event: " ++ nm⟩
  else .ok { ft with house_events := ft.house_events ++ [(nm, state)] }

/-- Anchored match of `_RE_GATE = ^(NAME)\s*:=\s*(.+)$`: the gate name
and the formula text.  When everything right of `:=` is whitespace,
backtracking gives `\s*` all but the last whitespace character and `.+`
that character; it is irrelevant because `get_formula` strips it. -/
def matchGateLine (s : List Char) : Option (List Char × List Char) :=
  match parseName s with
  | some (nm, r) =>
    match dropSpaces r with
    | ':' :: '=' :: r2 =>
      match dropSpaces r2 with
      | [] =>
        match r2.getLast? with
        | some c => some (nm, [c])
        | none => none
      | f => some (nm, f)
    | _ => none
  | none => none

/-- The probability alternation `(1|0|0\.\d+)$` of `_RE_PROB`. -/
def matchProbValue : List Char → Option (List Char)
  | ['1'] => some ['1']
  | ['0'] => some ['0']
  | '0' :: '.' :: ds =>
    if ds ≠ [] && ds.all isDigitChar then some ('0' :: '.' :: ds) else none
  | _ => none

/-- Anchored match of
`_RE_PROB = ^p\(\s*(NAME)\s*\)\s*=\s*(1|0|0\.\d+)$`. -/
def matchProbLine (s : List Char) : Option (List Char × List Char) :=
  match s with
  | 'p' :: '(' :: r =>
    match parseName (dropSpaces r) with
    | some (nm, r1) =>
      match dropSpaces r1 with
      | ')' :: r2 =>
        match dropSpaces r2 with
        | '=' :: r3 =>
          match matchProbValue (dropSpaces r3) with
          | some pv => some (nm, pv)
          | none => none
        | _ => none
      | _ => none
    | none => none
  | _ => none

/-- The state alternation `(true|false)$` of `_RE_STATE`. -/
def matchStateValue : List Char → Option (List Char)
  | ['t', 'r', 'u', 'e'] => some ['t', 'r', 'u', 'e']
  | ['f', 'a', 'l', 's', 'e'] => some ['f', 'a', 'l', 's', 'e']
  | _ => none

/-- Anchored match of
`_RE_STATE = ^s\(\s*(NAME)\s*\)\s*=\s*(true|false)$`. -/
def matchStateLine (s : List Char) : Option (List Char × List Char) :=
  match s with
  | 's' :: '(' :: r =>
    match parseName (dropSpaces r) with
    | some (nm, r1) =>
      match dropSpaces r1 with
      | ')' :: r2 =>
        match dropSpaces r2 with
        | '=' :: r3 =>
          match matchStateValue (dropSpaces r3) with
          | some sv => some (nm, sv)
          | none => none
        | _ => none
      | _ => none
    | none => none
  | _ => none

/-- `interpret_line`: strip, skip blank lines, then try the anchored
line forms in the source's order: gate definition, probability, state,
fault-tree name; otherwise a `ParsingError`. -/
def interpret_line (line0 : List Char) (ft : FTState) : Except ConvError FTState :=
  let line := strip line0
  if line.isEmpty then .ok ft
  else match matchGateLine line with
  | some (nm, fl) =>
    match get_formula fl with
    | .ok op args mn mx => add_gate ft (String.mk nm) op (args.map String.mk) mn mx
    | .faultTreeError m => .error ⟨.faultTree, m⟩
    | .parsingError m => .error ⟨.parsing, m⟩
  | none =>
  match matchProbLine line with
  | some (nm, pv) => add_basic_event ft (String.mk nm) (String.mk pv)
  | none =>
  match matchStateLine line with
  | some (nm, sv) => add_house_event ft (String.mk nm) (String.mk sv)
  | none =>
  if nameSigFull line then
    match ft.name with
    | some old =>
      .error ⟨.format,
        "Redefinition of the fault tree name:\n" ++ old ++ " to " ++ String.mk line⟩
    | none => .ok { ft with name := some (String.mk line) }
  else .error ⟨.parsing, "Cannot interpret the line."⟩

/-- The line loop of `parse_input`: line numbers from 1; a raised error
gets the offending line appended for diagnostics. -/
def interpretLines (n : Nat) : List (List Char) → FTState → Except ConvError FTState
  | [], ft => .ok ft
  | l :: rest, ft =>
    match interpret_line l ft with
    | .ok ft2 => interpretLines (n + 1) rest ft2
    | .error e =>
      .error ⟨e.kind, e.msg ++ "\nIn line " ++ toString n ++ ":\n" ++ String.mk l⟩

/-- The kind-partitioned resolved argument sets of a populated `Gate`
(`g_arguments`, `b_arguments`, `h_arguments`, `u_arguments`) and its
`complement_arguments`.  Python `set`s of event objects are modelled as
duplicate-free lists of event names in first-insertion order; names
identify objects because the namespace is shared and unique, and only
membership and size are externally observable. -/
structure PopGate where
  name : String
  operator : String
  min_num : Option Nat := none
  max_num : Option Nat := none
  g_args : List String := []
  b_args : List String := []
  h_args : List String := []
  u_args : List String := []
  compl_args : List String := []
deriving DecidableEq

/-- Set-semantics insertion: already-present elements are ignored. -/
def setInsert (l : List String) (x : String) : List String :=
  if x ∈ l then l else l ++ [x]

/-- The runtime type of a resolved argument object, which
`Gate.add_argument` dispatches on with `isinstance`. -/
inductive ArgKind where
  | gate
  | basic
  | house
  | undef
deriving DecidableEq

/-- `Gate.add_argument` of `fault_tree.py`: record the complement if
flagged, then insert the argument into the collection of its kind.
All collections are sets: "Duplicate arguments are ignored."  The
parent update (`argument.parents.add(self)`) is tracked separately. -/
def add_argument (pg : PopGate) (argName : String) (kind : ArgKind)
    (complement : Bool) : PopGate :=
  let pg1 :=
    if complement then { pg with compl_args := setInsert pg.compl_args argName }
    else pg
  match kind with
  | .gate => { pg1 with g_args := setInsert pg1.g_args argName }
  | .basic => { pg1 with b_args := setInsert pg1.b_args argName }
  | .house => { pg1 with h_args := setInsert pg1.h_args argName }
  | .undef => { pg1 with u_args := setInsert pg1.u_args argName }

/-- `argument.parents.add(self)` in `add_argument`, on the name-keyed
parent map. -/
def addParent (par : String → List String) (child parentGate : String) :
    String → List String :=
  fun x => if x = child then setInsert (par child) parentGate else par x

/-- Resolution of one raw token in `populate`: the complement marker is
`startswith("~")`, the bare name is `lstrip("~")`; the name is looked
up in the gate, basic-event, house-event, then undefined tables, and a
total miss mints a new undefined event (with a non-fatal warning).
Returns the resolved name, its kind, the complement flag, and the
updated undefined table. -/
def resolveToken (ft : FTState) (undef : List String) (tok : String) :
    String × ArgKind × Bool × List String :=
  let complement := tok.toList.head? = some '~'
  let nm := String.mk (tok.toList.dropWhile (fun c => c = '~'))
  if ft.gates.any (fun g => g.name = nm) then (nm, .gate, complement, undef)
  else if ft.basic_events.any (fun p => p.1 = nm) then (nm, .basic, complement, undef)
  else if ft.house_events.any (fun p => p.1 = nm) then (nm, .house, complement, undef)
  else if nm ∈ undef then (nm, .undef, complement, undef)
  else (nm, .undef, complement, undef ++ [nm])

/-- The inner loop of `populate` for one gate: resolve and attach every
raw token in order. -/
def populateGate (ft : FTState) (gd : GateDecl) (undef : List String)
    (par : String → List String) :
    PopGate × List String × (String → List String) :=
  gd.event_arguments.foldl
    (fun st tok =>
      let (nm, kind, compl, undef2) := resolveToken ft st.2.1 tok
      (add_argument st.1 nm kind compl, undef2, addParent st.2.2 nm gd.name))
    (⟨gd.name, gd.operator, gd.min_num, gd.max_num, [], [], [], [], []⟩, undef, par)

/-- The outer loop of `populate`: all gates in declaration order,
threading the undefined-event table and the parent map. -/
def populateAll (ft : FTState) :
    List PopGate × List String × (String → List String) :=
  ft.gates.foldl
    (fun st gd =>
      let (pg, undef2, par2) := populateGate ft gd st.2.1 st.2.2
      (st.1 ++ [pg], undef2, par2))
    ([], [], fun _ => [])

/-- `__detect_top`: the orphan gates (no recorded parents) in
declaration order; multiple tops are an error without `multi_top`, zero
tops always. -/
def detect_top (ft : FTState) (par : String → List String) (multi : Bool) :
    Except String (List String) :=
  let tops := (ft.gates.filter (fun g => (par g.name).isEmpty)).map (fun g => g.name)
  if tops.length > 1 && !multi then
    .error ("Detected multiple top gates:\n" ++ pyStrList tops)
  else if tops.isEmpty then .error "No top gate is detected"
  else .ok tops

/-- The fully populated and checked tree that `parse_input` returns. -/
structure PopTree where
  ft : FTState
  popGates : List PopGate
  undef : List String
  parents : String → List String
  top_gates : List String
  marks : Marks

/-- The gate-argument adjacency of the populated tree, for the graph
algorithms (`gate.g_arguments` restricted to gates). -/
def popGArgs (pgs : List PopGate) : String → List String :=
  fun nm => ((pgs.find? (fun pg => pg.name = nm)).map PopGate.g_args).getD []

/-- `LateBindingFaultTree.populate`: resolve every raw token (the
undefined-event and orphan-event warnings are non-fatal and carry no
state), then `__detect_top` followed by `__detect_cycle`.  Freshly
constructed gates carry mark `None`.  The DFS fuel
`ft.gates.length + 1` exceeds the possible recursion depth, so the
fuel-exhaustion branch is unreachable. -/
def populate (ft : FTState) : Except ConvError PopTree :=
  let (pgs, undef, par) := populateAll ft
  match detect_top ft par ft.multi_top with
  | .error m => .error ⟨.faultTree, m⟩
  | .ok tops =>
    match detect_cycle (ft.gates.length + 1) (ft.gates.map (fun g => g.name))
        (popGArgs pgs) tops (fun _ => .mnone) with
    | none => .error ⟨.faultTree, "fuel exhausted"⟩
    | some (.error m) => .error ⟨.faultTree, m⟩
    | some (.ok m1) => .ok ⟨ft, pgs, undef, par, tops, m1⟩

/-- `parse_input` of `aralia.py`: interpret every line, require a tree
name, set the multi-top flag, and populate. -/
def parse_input (lines : List (List Char)) (multi_top : Bool) :
    Except ConvError PopTree :=
  match interpretLines 1 lines {} with
  | .error e => .error e
  | .ok ft =>
    if ft.name.isNone then .error ⟨.format, "The fault tree name is not given."⟩
    else populate { ft with multi_top := multi_top }

/-- The raised error of a conversion, if any (the observable outcome
used in the concrete theorems; `PopTree` holds functions and has no
decidable equality). -/
def convError? (r : Except ConvError PopTree) : Option ConvError :=
  match r with
  | .error e => some e
  | .ok _ => none

/-- A named gate of the resulting tree. -/
def popGateOf (r : Except ConvError PopTree) (nm : String) : Option PopGate :=
  match r with
  | .error _ => none
  | .ok t => t.popGates.find? (fun pg => pg.name = nm)

/-! ### Order and mark properties of `toposort_gates` -/

theorem setMark_same (m : Marks) (g : String) (v : Mark) : setMark m g v g = v := by
  simp [setMark]

theorem setMark_other {x g : String} (m : Marks) (v : Mark) (h : ¬ x = g) :
    setMark m g v x = m x := by
  simp [setMark, h]

theorem mark_perm_of_not_temp_not_unvisited {v : Mark} (h1 : ¬ v = .temp)
    (h2 : ¬ v.unvisited = true) : v = .perm := by
  cases v <;> simp [Mark.unvisited] at h1 h2 ⊢

theorem unvisited_ne_perm {v : Mark} (h : v.unvisited = true) : ¬ v = .perm := by
  cases v <;> simp [Mark.unvisited] at h ⊢

theorem foldl_setMark_mem (gates : List String) (v : Mark) (m : Marks) (x : String) :
    (gates.foldl (fun m g => setMark m g v) m) x = if x ∈ gates then v else m x := by
  induction gates generalizing m with
  | nil => simp
  | cons g rest ih =>
    simp only [List.foldl_cons, ih, List.mem_cons]
    by_cases hx : x ∈ rest
    · simp [hx]
    · by_cases hg : x = g <;> simp [setMark, hx, hg]

/-- Every gate argument of every member of `L` occurs strictly later in
`L`: the emitted order places a gate before each of its gate
arguments. -/
def ChildrenBehind (gArgs : String → List String) (L : List String) : Prop :=
  ∀ l1 g l2, L = l1 ++ g :: l2 → ∀ c ∈ gArgs g, c ∈ l2

theorem childrenBehind_nil (gArgs : String → List String) :
    ChildrenBehind gArgs [] := by
  intro l1 g l2 heq
  exact absurd heq (by simp)

theorem childrenBehind_cons {gArgs : String → List String} {g : String}
    {acc : List String} (hacc : ChildrenBehind gArgs acc)
    (hg : ∀ c ∈ gArgs g, c ∈ acc) : ChildrenBehind gArgs (g :: acc) := by
  intro l1 g' l2 heq c hc
  cases l1 with
  | nil =>
    simp only [List.nil_append, List.cons.injEq] at heq
    obtain ⟨h1, h2⟩ := heq
    subst h1; subst h2
    exact hg c hc
  | cons a l1' =>
    simp only [List.cons_append, List.cons.injEq] at heq
    obtain ⟨_, h2⟩ := heq
    exact hacc l1' g' l2 h2 c hc

/-- The DFS invariant of `toposort_gates`: permanently marked gates are
exactly the emitted ones, and the emitted list already satisfies the
parent-before-children order. -/
def TopoInv (gArgs : String → List String) (gset : List String) (m : Marks)
    (acc : List String) : Prop :=
  (∀ x ∈ gset, m x = .perm → x ∈ acc) ∧
  (∀ x ∈ acc, m x = .perm) ∧
  ChildrenBehind gArgs acc

/-- The gate-membership side condition for the merged DFS input. -/
def InpIn (gset : List String) : String ⊕ List String → Prop
  | .inl g => g ∈ gset
  | .inr cs => ∀ c ∈ cs, c ∈ gset

/-- The marks guaranteed permanent after the merged DFS input. -/
def InpPerm (m : Marks) : String ⊕ List String → Prop
  | .inl g => m g = .perm
  | .inr cs => ∀ c ∈ cs, m c = .perm

theorem topo_inv (gArgs : String → List String) (gset : List String)
    (Hc : ∀ g ∈ gset, ∀ c ∈ gArgs g, c ∈ gset) :
    ∀ (fuel : Nat) (inp : String ⊕ List String) (m : Marks) (acc : List String)
      (m2 : Marks) (acc2 : List String),
      InpIn gset inp → TopoInv gArgs gset m acc →
      topoVisit gArgs fuel inp m acc = some (m2, acc2) →
      TopoInv gArgs gset m2 acc2 ∧ InpPerm m2 inp ∧
        (∀ x, m x = .perm → m2 x = .perm) ∧ (∀ x ∈ acc, x ∈ acc2) := by
  intro fuel
  induction fuel with
  | zero =>
    intro inp m acc m2 acc2 _ _ h
    simp [topoVisit] at h
  | succ fu ih =>
    intro inp m acc m2 acc2 hin hinv h
    match inp with
    | .inl g =>
      simp only [topoVisit] at h
      by_cases ht : m g = .temp
      · rw [if_pos ht] at h
        exact absurd h (by simp)
      · rw [if_neg ht] at h
        by_cases hu : (m g).unvisited = true
        · rw [if_pos hu] at h
          rcases hvl : topoVisit gArgs fu (.inr (gArgs g)) (setMark m g .temp) acc with
            _ | ⟨m3, acc3⟩
          · rw [hvl] at h
            exact absurd h (by simp)
          · rw [hvl] at h
            simp only [Option.some.injEq, Prod.mk.injEq] at h
            obtain ⟨hm2, hacc2⟩ := h
            subst hm2; subst hacc2
            have hnp : ¬ m g = .perm := unvisited_ne_perm hu
            have hinv2 : TopoInv gArgs gset (setMark m g .temp) acc := by
              obtain ⟨i1, i2, i3⟩ := hinv
              refine ⟨fun x hx hp => ?_, fun x hx => ?_, i3⟩
              · by_cases hxg : x = g
                · subst hxg
                  rw [setMark_same] at hp
                  exact absurd hp (by simp)
                · rw [setMark_other _ _ hxg] at hp
                  exact i1 x hx hp
              · have hxg : ¬ x = g := by
                  intro hxg
                  subst hxg
                  exact hnp (i2 x hx)
                rw [setMark_other _ _ hxg]
                exact i2 x hx
            have hsub : InpIn gset (.inr (gArgs g)) := Hc g hin
            obtain ⟨jinv, jperm, jmono, jgrow⟩ :=
              ih (.inr (gArgs g)) _ _ _ _ hsub hinv2 hvl
            obtain ⟨j1, j2, j3⟩ := jinv
            refine ⟨⟨?_, ?_, ?_⟩, ?_, ?_, ?_⟩
            · intro x hx hp
              by_cases hxg : x = g
              · subst hxg
                exact List.mem_cons_self x acc3
              · rw [setMark_other _ _ hxg] at hp
                exact List.mem_cons_of_mem _ (j1 x hx hp)
            · intro x hx
              by_cases hxg : x = g
              · subst hxg
                exact setMark_same _ _ _
              · rw [setMark_other _ _ hxg]
                rcases List.mem_cons.mp hx with hx | hx
                · exact absurd hx hxg
                · exact j2 x hx
            · refine childrenBehind_cons j3 (fun c hc => ?_)
              exact j1 c (hsub c hc) (jperm c hc)
            · exact setMark_same _ _ _
            · intro x hx
              have hxg : ¬ x = g := fun he => hnp (he ▸ hx)
              rw [setMark_other _ _ hxg]
              refine jmono x ?_
              rw [setMark_other _ _ hxg]
              exact hx
            · exact fun x hx => List.mem_cons_of_mem _ (jgrow x hx)
        · rw [if_neg hu] at h
          simp only [Option.some.injEq, Prod.mk.injEq] at h
          obtain ⟨h1, h2⟩ := h
          subst h1; subst h2
          exact ⟨hinv, mark_perm_of_not_temp_not_unvisited ht hu,
            fun x hx => hx, fun x hx => hx⟩
    | .inr [] =>
      simp only [topoVisit, Option.some.injEq, Prod.mk.injEq] at h
      obtain ⟨h1, h2⟩ := h
      subst h1; subst h2
      exact ⟨hinv, by intro c hc; exact absurd hc (by simp),
        fun x hx => hx, fun x hx => hx⟩
    | .inr (c :: rest) =>
      simp only [topoVisit] at h
      rcases hv : topoVisit gArgs fu (.inl c) m acc with _ | ⟨m3, acc3⟩
      · rw [hv] at h
        exact absurd h (by simp)
      · rw [hv] at h
        obtain ⟨kinv, kperm, kmono, kgrow⟩ :=
          ih (.inl c) m acc m3 acc3 (hin c (by simp)) hinv hv
        obtain ⟨linv, lperm, lmono, lgrow⟩ :=
          ih (.inr rest) m3 acc3 m2 acc2 (fun d hd => hin d (by simp [hd])) kinv h
        refine ⟨linv, ?_, fun x hx => lmono x (kmono x hx),
          fun x hx => lgrow x (kgrow x hx)⟩
        intro d hd
        rcases List.mem_cons.mp hd with hd | hd
        · subst hd
          exact lmono d kperm
        · exact lperm d hd

theorem visitTopoRoots_inv (gArgs : String → List String) (gset : List String)
    (Hc : ∀ g ∈ gset, ∀ c ∈ gArgs g, c ∈ gset) (fuel : Nat) :
    ∀ (roots : List String) (m : Marks) (acc : List String) (m2 : Marks)
      (acc2 : List String), (∀ r ∈ roots, r ∈ gset) → TopoInv gArgs gset m acc →
      visitTopoRoots fuel gArgs roots m acc = some (m2, acc2) →
      TopoInv gArgs gset m2 acc2 := by
  intro roots
  induction roots with
  | nil =>
    intro m acc m2 acc2 _ hinv h
    simp only [visitTopoRoots, Option.some.injEq, Prod.mk.injEq] at h
    obtain ⟨h1, h2⟩ := h
    subst h1; subst h2
    exact hinv
  | cons rt rest ih =>
    intro m acc m2 acc2 hr hinv h
    simp only [visitTopoRoots] at h
    rcases hv : visitTopo fuel gArgs rt m acc with _ | ⟨m3, acc3⟩
    · rw [hv] at h
      exact absurd h (by simp)
    · rw [hv] at h
      have hstep := topo_inv gArgs gset Hc fuel (.inl rt) m acc m3 acc3
        (hr rt (by simp)) hinv hv
      exact ih m3 acc3 m2 acc2 (fun r h2 => hr r (by simp [h2])) hstep.1 h

/-- C1's content at the level of `toposort_gates`: whenever the sort
succeeds, the emitted order places every gate before each of its gate
arguments. -/
theorem toposort_children_behind {fuel : Nat} {roots gates : List String}
    {gArgs : String → List String} {m0 : Marks} {res : List String × Marks}
    (Hc : ∀ g ∈ gates, ∀ c ∈ gArgs g, c ∈ gates)
    (Hr : ∀ r ∈ roots, r ∈ gates)
    (h : toposort_gates fuel roots gates gArgs m0 = some res) :
    ChildrenBehind gArgs res.1 := by
  unfold toposort_gates at h
  simp only at h
  rcases hv : visitTopoRoots fuel gArgs roots
      (gates.foldl (fun m g => setMark m g .mempty) m0) [] with _ | ⟨m2, acc⟩
  · rw [hv] at h
    exact absurd h (by simp)
  · rw [hv] at h
    dsimp only at h
    by_cases hl : acc.length = gates.length
    · rw [if_pos hl] at h
      simp only [Option.some.injEq] at h
      subst h
      have hinit : TopoInv gArgs gates
          (gates.foldl (fun m g => setMark m g .mempty) m0) [] := by
        refine ⟨fun x hx hp => ?_, fun x hx => absurd hx (by simp),
          childrenBehind_nil _⟩
        rw [foldl_setMark_mem, if_pos hx] at hp
        exact absurd hp (by simp)
      exact (visitTopoRoots_inv gArgs gates Hc fuel roots _ [] m2 acc Hr hinit hv).2.2
    · rw [if_neg hl] at h
      exact absurd h (by simp)

/-- C4's content, part one: a successful `toposort_gates` leaves every
gate's mark reset to `None` (unvisited). -/
theorem toposort_resets_marks {fuel : Nat} {roots gates : List String}
    {gArgs : String → List String} {m0 : Marks} {res : List String × Marks}
    (h : toposort_gates fuel roots gates gArgs m0 = some res) :
    ∀ g ∈ gates, res.2 g = Mark.mnone := by
  unfold toposort_gates at h
  simp only at h
  rcases hv : visitTopoRoots fuel gArgs roots
      (gates.foldl (fun m g => setMark m g .mempty) m0) [] with _ | ⟨m2, acc⟩
  · rw [hv] at h
    exact absurd h (by simp)
  · rw [hv] at h
    dsimp only at h
    by_cases hl : acc.length = gates.length
    · rw [if_pos hl] at h
      simp only [Option.some.injEq] at h
      subst h
      intro g hg
      show (gates.foldl (fun m g => setMark m g .mnone) m2) g = Mark.mnone
      rw [foldl_setMark_mem, if_pos hg]
    · rw [if_neg hl] at h
      exact absurd h (by simp)

/-- Two mark states that agree on every gate of the graph. -/
def MarksAgree (gset : List String) (m m' : Marks) : Prop :=
  ∀ x ∈ gset, m x = m' x

theorem topo_cong (gArgs : String → List String) (gset : List String)
    (Hc : ∀ g ∈ gset, ∀ c ∈ gArgs g, c ∈ gset) :
    ∀ (fuel : Nat) (inp : String ⊕ List String) (m m' : Marks) (acc : List String),
      InpIn gset inp → MarksAgree gset m m' →
      ((topoVisit gArgs fuel inp m acc = none ∧ topoVisit gArgs fuel inp m' acc = none) ∨
        (∃ m2 m2' acc2, topoVisit gArgs fuel inp m acc = some (m2, acc2) ∧
          topoVisit gArgs fuel inp m' acc = some (m2', acc2) ∧ MarksAgree gset m2 m2')) := by
  intro fuel
  induction fuel with
  | zero =>
    intro inp m m' acc _ _
    left
    exact ⟨by simp [topoVisit], by simp [topoVisit]⟩
  | succ fu ih =>
    intro inp m m' acc hin hag
    match inp with
    | .inl g =>
      have hgg : m' g = m g := (hag g hin).symm
      by_cases ht : m g = .temp
      · left
        constructor
        · simp [topoVisit, ht]
        · simp [topoVisit, hgg, ht]
      · by_cases hu : (m g).unvisited = true
        · have e1 : topoVisit gArgs (fu + 1) (.inl g) m acc =
              (match topoVisit gArgs fu (.inr (gArgs g)) (setMark m g .temp) acc with
                | none => none
                | some (m2, acc2) => some (setMark m2 g .perm, g :: acc2)) := by
            simp only [topoVisit]
            rw [if_neg ht, if_pos hu]
          have e2 : topoVisit gArgs (fu + 1) (.inl g) m' acc =
              (match topoVisit gArgs fu (.inr (gArgs g)) (setMark m' g .temp) acc with
                | none => none
                | some (m2, acc2) => some (setMark m2 g .perm, g :: acc2)) := by
            simp only [topoVisit, hgg]
            rw [if_neg ht, if_pos hu]
          have hag2 : MarksAgree gset (setMark m g .temp) (setMark m' g .temp) := by
            intro x hx
            by_cases hxg : x = g
            · subst hxg
              rw [setMark_same, setMark_same]
            · rw [setMark_other _ _ hxg, setMark_other _ _ hxg]
              exact hag x hx
          rcases ih (.inr (gArgs g)) (setMark m g .temp) (setMark m' g .temp) acc
              (Hc g hin) hag2 with ⟨hn1, hn2⟩ | ⟨m2, m2', acc2, hs1, hs2, hagr⟩
          · left
            constructor
            · rw [e1, hn1]
            · rw [e2, hn2]
          · right
            refine ⟨setMark m2 g .perm, setMark m2' g .perm, g :: acc2, ?_, ?_, ?_⟩
            · rw [e1, hs1]
            · rw [e2, hs2]
            · intro x hx
              by_cases hxg : x = g
              · subst hxg
                rw [setMark_same, setMark_same]
              · rw [setMark_other _ _ hxg, setMark_other _ _ hxg]
                exact hagr x hx
        · right
          refine ⟨m, m', acc, ?_, ?_, hag⟩
          · simp [topoVisit, ht, hu]
          · simp [topoVisit, hgg, ht, hu]
    | .inr [] =>
      right
      exact ⟨m, m', acc, rfl, rfl, hag⟩
    | .inr (c :: rest) =>
      have e1 : topoVisit gArgs (fu + 1) (.inr (c :: rest)) m acc =
          (match topoVisit gArgs fu (.inl c) m acc with
            | none => none
            | some (m2, acc2) => topoVisit gArgs fu (.inr rest) m2 acc2) := rfl
      have e2 : topoVisit gArgs (fu + 1) (.inr (c :: rest)) m' acc =
          (match topoVisit gArgs fu (.inl c) m' acc with
            | none => none
            | some (m2, acc2) => topoVisit gArgs fu (.inr rest) m2 acc2) := rfl
      rcases ih (.inl c) m m' acc (hin c (by simp)) hag with
        ⟨hn1, hn2⟩ | ⟨m3, m3', acc3, hs1, hs2, hag3⟩
      · left
        constructor
        · rw [e1, hn1]
        · rw [e2, hn2]
      · rcases ih (.inr rest) m3 m3' acc3 (fun d hd => hin d (by simp [hd])) hag3 with
          ⟨jn1, jn2⟩ | ⟨m2a, m2b, acc2a, js1, js2, jag⟩
        · left
          constructor
          · rw [e1, hs1]
            exact jn1
          · rw [e2, hs2]
            exact jn2
        · right
          refine ⟨m2a, m2b, acc2a, ?_, ?_, jag⟩
          · rw [e1, hs1]
            exact js1
          · rw [e2, hs2]
            exact js2

theorem visitTopoRoots_cong (gArgs : String → List String) (gset : List String)
    (Hc : ∀ g ∈ gset, ∀ c ∈ gArgs g, c ∈ gset) (fuel : Nat) :
    ∀ (roots : List String) (m m' : Marks) (acc : List String),
      (∀ r ∈ roots, r ∈ gset) → MarksAgree gset m m' →
      ((visitTopoRoots fuel gArgs roots m acc = none ∧
          visitTopoRoots fuel gArgs roots m' acc = none) ∨
        (∃ m2 m2' acc2, visitTopoRoots fuel gArgs roots m acc = some (m2, acc2) ∧
          visitTopoRoots fuel gArgs roots m' acc = some (m2', acc2))) := by
  intro roots
  induction roots with
  | nil =>
    intro m m' acc _ _
    right
    exact ⟨m, m', acc, rfl, rfl⟩
  | cons rt rest ih =>
    intro m m' acc hr hag
    simp only [visitTopoRoots]
    rcases topo_cong gArgs gset Hc fuel (.inl rt) m m' acc (hr rt (by simp)) hag with
      ⟨hn1, hn2⟩ | ⟨m3, m3', acc3, hs1, hs2, hag3⟩
    · rw [show visitTopo fuel gArgs rt m acc = none from hn1,
        show visitTopo fuel gArgs rt m' acc = none from hn2]
      left
      exact ⟨rfl, rfl⟩
    · rw [show visitTopo fuel gArgs rt m acc = some (m3, acc3) from hs1,
        show visitTopo fuel gArgs rt m' acc = some (m3', acc3) from hs2]
      exact ih m3 m3' acc3 (fun r h2 => hr r (by simp [h2])) hag3

/-- C4's content, part two: the emitted order of `toposort_gates` does
not depend on the incoming marks (it resets every gate's mark to `""`
before traversing), so no mark left by cycle detection can influence
the sort. -/
theorem toposort_order_independent (fuel : Nat) (roots gates : List String)
    (gArgs : String → List String) (m0 m0' : Marks)
    (Hc : ∀ g ∈ gates, ∀ c ∈ gArgs g, c ∈ gates)
    (Hr : ∀ r ∈ roots, r ∈ gates) :
    (toposort_gates fuel roots gates gArgs m0).map Prod.fst =
      (toposort_gates fuel roots gates gArgs m0').map Prod.fst := by
  unfold toposort_gates
  simp only
  have hag : MarksAgree gates (gates.foldl (fun m g => setMark m g .mempty) m0)
      (gates.foldl (fun m g => setMark m g .mempty) m0') := by
    intro x hx
    rw [foldl_setMark_mem, foldl_setMark_mem, if_pos hx, if_pos hx]
  rcases visitTopoRoots_cong gArgs gates Hc fuel roots _ _ [] Hr hag with
    ⟨hn1, hn2⟩ | ⟨m2, m2', acc2, hs1, hs2⟩
  · rw [hn1, hn2]
  · rw [hs1, hs2]
    dsimp only
    by_cases hl : acc2.length = gates.length
    · rw [if_pos hl, if_pos hl]
      rfl
    · rw [if_neg hl, if_neg hl]

/-! ### Helpers for the concrete runs -/

/-- Prefix test on character lists. -/
def isPrefixSub : List Char → List Char → Bool
  | [], _ => true
  | _ :: _, [] => false
  | c :: cs, d :: ds => c = d && isPrefixSub cs ds

/-- Substring occurrence test, for assertions about error messages. -/
def hasSubstr (msg sub : List Char) : Bool :=
  match msg with
  | [] => isPrefixSub sub []
  | _ :: rest => isPrefixSub sub msg || hasSubstr rest sub

/-- The final mark of a named gate after a successful conversion. -/
def markOf (r : Except ConvError PopTree) (nm : String) : Option Mark :=
  match r with
  | .error _ => none
  | .ok t => some (t.marks nm)

/-- Gate arguments of the two-gate chain example: `g1` has the single
gate argument `g2`, `g2` has none. -/
def exGA : String → List String := fun n => if n = "g1" then ["g2"] else []

/-- The result of `toposort_gates` on the two-gate chain (defined, by
computation, so that the witness can name it). -/
def exRes : List String × Marks :=
  (toposort_gates 5 ["g1"] ["g1", "g2"] exGA (fun _ => Mark.mnone)).getD
    ([], fun _ => Mark.mnone)

/-! ### The claims -/

/-- C1 (amended): for every successful run of the topological
serializer, for every gate `g` and every gate-argument `c` of `g`,
`g`'s position precedes `c`'s position in the emitted order: wherever
the order splits as `l1 ++ g :: l2`, every gate argument of `g` lies in
the suffix `l2`.  (The claim as frozen states the opposite direction;
`visit` prepends each gate after its children, so parents come
first.) -/
theorem claim1_toposort_parent_precedes_child {fuel : Nat} {roots gates : List String}
    {gArgs : String → List String} {m0 : Marks} {res : List String × Marks}
    (Hc : ∀ g ∈ gates, ∀ c ∈ gArgs g, c ∈ gates)
    (Hr : ∀ r ∈ roots, r ∈ gates)
    (h : toposort_gates fuel roots gates gArgs m0 = some res) :
    ∀ l1 g l2, res.1 = l1 ++ g :: l2 → ∀ c ∈ gArgs g, c ∈ l2 :=
  toposort_children_behind Hc Hr h

/-- Witness for C1: the amended theorem applied to the concrete
two-gate chain `g1 -> g2`, whose emitted order is `[g1, g2]`, at the
split `[] ++ g1 :: [g2]` and the gate argument `g2` of `g1`. -/
theorem claim1_witness : "g2" ∈ (["g2"] : List String) :=
  @claim1_toposort_parent_precedes_child 5 ["g1"] ["g1", "g2"] exGA
    (fun _ => Mark.mnone) exRes (by decide) (by decide) (by rfl)
    [] "g1" ["g2"] (by rfl) "g2" (by decide)

/-- C1 counterexample: on the chain `g1 -> g2` the emitted order is
`[g1, g2]`; `g2` is a gate argument of `g1`, yet `g2`'s position (1)
does not precede `g1`'s position (0) — children do not come first. -/
theorem claim1_counterexample :
    (toposort_gates 5 ["g1"] ["g1", "g2"] exGA (fun _ => Mark.mnone)).map Prod.fst =
      some ["g1", "g2"] ∧
    "g2" ∈ exGA "g1" ∧
    ¬ List.indexOf "g2" ["g1", "g2"] < List.indexOf "g1" ["g1", "g2"] :=
  ⟨rfl, by decide, by decide⟩

/-- The C2 input: a valid tree name and two mutually cyclic gate
definitions. -/
def cycleInputC2 : List (List Char) :=
  ["FT".toList, "g1 := g2 & e1".toList, "g2 := g1 & e1".toList]

/-- The pass-1 state of the C2 input. -/
def ft2 : FTState :=
  { name := some "FT",
    gates := [⟨"g1", "and", none, none, ["g2", "e1"]⟩,
      ⟨"g2", "and", none, none, ["g1", "e1"]⟩] }

/-- C2 counterexample: the conversion of `g1 := g2 & e1` /
`g2 := g1 & e1` fails with the structural error "No top gate is
detected", which is not a cycle error and names neither `g1` nor
`g2`. -/
theorem claim2_counterexample :
    convError? (parse_input cycleInputC2 false) =
      some ⟨.faultTree, "No top gate is detected"⟩ ∧
    hasSubstr "No top gate is detected".toList "g1".toList = false ∧
    hasSubstr "No top gate is detected".toList "g2".toList = false ∧
    hasSubstr "No top gate is detected".toList "cycle".toList = false :=
  ⟨rfl, rfl, rfl, rfl⟩

/-- C2 (amended): on the mutual-cycle input each gate is the other's
parent, so no gate is an orphan, and the conversion fails in top-gate
detection — before cycle detection runs — with the structural error
"No top gate is detected". -/
theorem claim2_no_top_error :
    interpretLines 1 cycleInputC2 {} = .ok ft2 ∧
    (populateAll ft2).2.2 "g1" = ["g2"] ∧
    (populateAll ft2).2.2 "g2" = ["g1"] ∧
    detect_top ft2 (populateAll ft2).2.2 false = .error "No top gate is detected" ∧
    convError? (parse_input cycleInputC2 false) =
      some ⟨.faultTree, "No top gate is detected"⟩ :=
  ⟨rfl, rfl, rfl, rfl, rfl⟩

/-- The C4 single-gate input. -/
def simpleInputC4 : List (List Char) := ["FT".toList, "g1 := e1".toList]

/-- C4 counterexample: after a successful conversion — that is, after
cycle detection completed — the visited gate's mark is `"perm"`
(done), not back in an unvisited state. -/
theorem claim4_counterexample :
    markOf (parse_input simpleInputC4 false) "g1" = some Mark.perm ∧
    Mark.unvisited Mark.perm = false :=
  ⟨rfl, rfl⟩

/-- C4 (amended): cycle detection leaves visited gates marked done (see
the counterexample); the topological sort however overwrites every
gate's mark at its start — its emitted order is independent of the
incoming marks, so nothing cycle detection wrote can influence it —
and on successful completion it resets every gate's mark to the
unvisited `None`. -/
theorem claim4_toposort_mark_discipline :
    (∀ (fuel : Nat) (roots gates : List String) (gArgs : String → List String)
        (m0 : Marks) (res : List String × Marks),
        toposort_gates fuel roots gates gArgs m0 = some res →
        ∀ g ∈ gates, res.2 g = Mark.mnone) ∧
    (∀ (fuel : Nat) (roots gates : List String) (gArgs : String → List String)
        (m0 m0' : Marks),
        (∀ g ∈ gates, ∀ c ∈ gArgs g, c ∈ gates) → (∀ r ∈ roots, r ∈ gates) →
        (toposort_gates fuel roots gates gArgs m0).map Prod.fst =
          (toposort_gates fuel roots gates gArgs m0').map Prod.fst) :=
  ⟨fun _ _ _ _ _ _ h => toposort_resets_marks h,
    fun fuel roots gates gArgs m0 m0' Hc Hr =>
      toposort_order_independent fuel roots gates gArgs m0 m0' Hc Hr⟩

/-- Witness for C4: the mark-reset and mark-independence parts applied
to the concrete two-gate chain, the second with incoming marks all
`None` versus all `"perm"`. -/
theorem claim4_witness :
    (∀ g ∈ (["g1", "g2"] : List String), exRes.2 g = Mark.mnone) ∧
    (toposort_gates 5 ["g1"] ["g1", "g2"] exGA (fun _ => Mark.mnone)).map Prod.fst =
      (toposort_gates 5 ["g1"] ["g1", "g2"] exGA (fun _ => Mark.perm)).map Prod.fst :=
  ⟨claim4_toposort_mark_discipline.1 5 ["g1"] ["g1", "g2"] exGA (fun _ => Mark.mnone)
      exRes (by rfl),
    claim4_toposort_mark_discipline.2 5 ["g1"] ["g1", "g2"] exGA (fun _ => Mark.mnone)
      (fun _ => Mark.perm) (by decide) (by decide)⟩

/-- The C5 input: the two distinct tokens `~e2` and `e2` (the
repository's own `test_cancellation`). -/
def cancelInputC5 : List (List Char) :=
  ["FT".toList, "g1 := ~e2 & e2".toList, "p(e2) = 0.5".toList]

/-- The pass-1 state of the C5 input. -/
def ft5 : FTState :=
  { name := some "FT",
    gates := [⟨"g1", "and", none, none, ["~e2", "e2"]⟩],
    basic_events := [("e2", "0.5")] }

/-- C5 counterexample: the tokens `~e2` and `e2` pass the pass-1
duplicate check, both resolve to the same basic event `e2`, and the
populate pass attaches that object twice to `g1` — the second
attachment is silently absorbed by the argument set (which ends with
the single element `e2`) and the conversion succeeds with no invariant
failure. -/
theorem claim5_counterexample :
    get_formula "~e2 & e2".toList = .ok "and" ["~e2".toList, "e2".toList] none none ∧
    interpretLines 1 cancelInputC5 {} = .ok ft5 ∧
    (resolveToken ft5 [] "~e2").1 = "e2" ∧
    (resolveToken ft5 [] "e2").1 = "e2" ∧
    convError? (parse_input cancelInputC5 false) = none ∧
    popGateOf (parse_input cancelInputC5 false) "g1" =
      some ⟨"g1", "and", none, none, [], ["e2"], [], [], ["e2"]⟩ :=
  ⟨rfl, rfl, rfl, rfl, rfl, rfl⟩

/-- C5 (amended): when two distinct raw tokens (such as `~e2` and
`e2`) resolve to the same object, `populate` does attach that object
twice to the gate; `add_argument`'s set semantics silently ignores the
duplicate ("Duplicate arguments are ignored") and the conversion
completes without any invariant failure. -/
theorem claim5_silent_duplicate :
    add_argument
        (add_argument ⟨"g1", "and", none, none, [], [], [], [], []⟩ "e2" .basic false)
        "e2" .basic true =
      ⟨"g1", "and", none, none, [], ["e2"], [], [], ["e2"]⟩ ∧
    convError? (parse_input cancelInputC5 false) = none ∧
    popGateOf (parse_input cancelInputC5 false) "g1" =
      some ⟨"g1", "and", none, none, [], ["e2"], [], [], ["e2"]⟩ :=
  ⟨rfl, rfl, rfl⟩

/-- The C6 input: a proper top gate and two disjoint detached
two-cycles. -/
def detachedInputC6 : List (List Char) :=
  ["FT".toList, "g0 := e1".toList, "g1 := g2 & e1".toList, "g2 := g1 & e1".toList,
    "g3 := g4 & e1".toList, "g4 := g3 & e1".toList]

/-- The pass-1 state of the C6 input. -/
def ft6 : FTState :=
  { name := some "FT",
    gates := [⟨"g0", "null", none, none, ["e1"]⟩,
      ⟨"g1", "and", none, none, ["g2", "e1"]⟩,
      ⟨"g2", "and", none, none, ["g1", "e1"]⟩,
      ⟨"g3", "and", none, none, ["g4", "e1"]⟩,
      ⟨"g4", "and", none, none, ["g3", "e1"]⟩] }

/-- The single error message the C6 input produces. -/
def msgC6 : String :=
  "Detected detached gates that may be in a cycle\n['g1', 'g2', 'g3', 'g4']\nDetected a cycle: g1->g2->g1"

/-- C6 counterexample: the detached-gates error aggregates only the
first discovered cycle.  The DFS seeded at the detached gate `g3`
discovers the cycle `g3->g4->g3`, whose path does not occur in the one
raised error (only `g1->g2->g1` does). -/
theorem claim6_counterexample :
    convError? (parse_input detachedInputC6 false) = some ⟨.faultTree, msgC6⟩ ∧
    interpretLines 1 detachedInputC6 {} = .ok ft6 ∧
    (visitCycle 7 (popGArgs (populateAll ft6).1) "g3" (fun _ => Mark.mnone)).map
        Prod.fst = some (some ["g3", "g4", "g3"]) ∧
    raiseCycleMsg ["g3", "g4", "g3"] = "Detected a cycle: g3->g4->g3" ∧
    hasSubstr msgC6.toList "g3->g4->g3".toList = false :=
  ⟨rfl, rfl, rfl, rfl, rfl⟩

/-- C6 (amended): detached gates produce one structural error whose
message reports the detached condition with every detached gate name,
followed by the first cycle path the re-seeded DFS discovers — later
cycles are not included, because the loop raises at the first one. -/
theorem claim6_detached_error :
    convError? (parse_input detachedInputC6 false) = some ⟨.faultTree, msgC6⟩ ∧
    hasSubstr msgC6.toList "['g1', 'g2', 'g3', 'g4']".toList = true ∧
    hasSubstr msgC6.toList "Detected a cycle: g1->g2->g1".toList = true :=
  ⟨rfl, rfl, rfl⟩

/-- C7: for any line whose preprocessed form matches the AT-LEAST
shape with parameter `k` and duplicate-free tokens, `get_formula`
raises a `FaultTreeError` naming the offending line exactly when `k`
is not strictly less than the argument count, and succeeds with
operator `atleast` and min number `k` otherwise; in particular
`@(3, [a, b, c])` (k = n) and `@(4,[a,b,c])` (k > n) fail structurally
while `@(2,[a,b,c])` succeeds. -/
theorem claim7_atleast_boundary :
    (∀ (line : List Char) (k : Nat) (toks : List (List Char)),
        matchAtleast (preprocessed line) = some (k, toks) → toks.Nodup →
        ((k ≥ toks.length → get_formula line = .faultTreeError
            ("Invalid k/n for the combination formula:\n" ++
              String.mk (preprocessed line))) ∧
          (k < toks.length → get_formula line = .ok "atleast" toks (some k) none))) ∧
    get_formula "@(3, [a, b, c])".toList =
      .faultTreeError "Invalid k/n for the combination formula:\n@(3, [a, b, c])" ∧
    get_formula "@(4,[a,b,c])".toList =
      .faultTreeError "Invalid k/n for the combination formula:\n@(4,[a,b,c])" ∧
    get_formula "@(2,[a,b,c])".toList =
      .ok "atleast" ["a".toList, "b".toList, "c".toList] (some 2) none := by
  refine ⟨?_, rfl, rfl, rfl⟩
  intro line k toks hm hnd
  have hgf := get_formula_atleast hm hnd
  constructor
  · intro hk
    rw [hgf, if_pos hk]
  · intro hk
    rw [hgf, if_neg (by omega)]

/-- Witness for C7: the boundary theorem applied to the concrete line
`@(2, [x, y, z])`, whose k is strictly below its argument count. -/
theorem claim7_witness :
    (2 ≥ (["x".toList, "y".toList, "z".toList] : List (List Char)).length →
      get_formula "@(2, [x, y, z])".toList = .faultTreeError
        ("Invalid k/n for the combination formula:\n" ++
          String.mk (preprocessed "@(2, [x, y, z])".toList))) ∧
    (2 < (["x".toList, "y".toList, "z".toList] : List (List Char)).length →
      get_formula "@(2, [x, y, z])".toList =
        .ok "atleast" ["x".toList, "y".toList, "z".toList] (some 2) none) :=
  claim7_atleast_boundary.1 "@(2, [x, y, z])".toList 2
    ["x".toList, "y".toList, "z".toList] (by rfl) (by decide)

/-- C8: the name validator (`_NAME_SIG` anchored to the whole string)
accepts exactly the strings that start with a letter and consist of
word characters in single-hyphen-separated groups — no double hyphen,
no trailing hyphen, no period, no whitespace — with the claim's
concrete examples. -/
theorem claim8_name_validator :
    (∀ s : List Char, nameSigFull s = true ↔ SpecName s) ∧
    nameSigFull "With-Dash".toList = true ∧
    nameSigFull "Double--Dash".toList = false ∧
    nameSigFull "EndWithDash-".toList = false ∧
    nameSigFull "42StartWithNumbers".toList = false ∧
    nameSigFull "Peri.od".toList = false ∧
    nameSigFull "Has Space".toList = false ∧
    nameSigFull "Correct-Name_42".toList = true :=
  ⟨nameSigFull_iff_SpecName, rfl, rfl, rfl, rfl, rfl, rfl, rfl⟩

/-- C9: `get_formula` strips one outer parenthesis pair exactly when
the whole trimmed formula is one matching pair around a nonempty
parenthesis-free body; a second redundant pair is not stripped, and
`((a | b))` is rejected with a recognition failure while `(a | b)`
parses as an OR gate. -/
theorem claim9_paren_strip :
    (∀ s body : List Char, matchParen s = some body ↔
        s = '(' :: (body ++ [')']) ∧ body ≠ [] ∧ ∀ c ∈ body, isNonParen c = true) ∧
    preprocessed "(a | b)".toList = "a | b".toList ∧
    get_formula "(a | b)".toList = .ok "or" ["a".toList, "b".toList] none none ∧
    preprocessed "((a | b))".toList = "((a | b))".toList ∧
    get_formula "((a | b))".toList =
      .parsingError "Cannot interpret the formula:\n((a | b))" :=
  ⟨fun _ _ => matchParen_iff, rfl, rfl, rfl, rfl⟩

/-- C10: AT-LEAST and CARDINALITY recognition forces single-digit
numeric parameters (k in 2..9, l and h in 0..9) and at least three
bracketed arguments; `@(2,[a,b])`, `#(0,1,[a,b])` and `@(10,[a,b,c])`
all fail as recognition failures (`ParsingError`), not as structural
bound errors. -/
theorem claim10_recognition_bounds :
    (∀ (s : List Char) (k : Nat) (toks : List (List Char)),
        matchAtleast s = some (k, toks) → 2 ≤ k ∧ k ≤ 9 ∧ 3 ≤ toks.length) ∧
    (∀ (s : List Char) (mn mx : Nat) (toks : List (List Char)),
        matchCardinality s = some (mn, mx, toks) →
        mn ≤ 9 ∧ mx ≤ 9 ∧ 3 ≤ toks.length) ∧
    get_formula "@(2,[a,b])".toList =
      .parsingError "Cannot interpret the formula:\n@(2,[a,b])" ∧
    get_formula "#(0,1,[a,b])".toList =
      .parsingError "Cannot interpret the formula:\n#(0,1,[a,b])" ∧
    get_formula "@(10,[a,b,c])".toList =
      .parsingError "Cannot interpret the formula:\n@(10,[a,b,c])" :=
  ⟨fun _ _ _ h => matchAtleast_bounds h, fun _ _ _ _ h => matchCardinality_bounds h,
    rfl, rfl, rfl⟩

/-- Witness for C10: the AT-LEAST bound part applied to the concrete
recognized formula `@(2,[a,b,c])`. -/
theorem claim10_witness :
    2 ≤ 2 ∧ 2 ≤ 9 ∧ 3 ≤ (["a".toList, "b".toList, "c".toList] : List (List Char)).length :=
  claim10_recognition_bounds.1 "@(2,[a,b,c])".toList 2
    ["a".toList, "b".toList, "c".toList] (by rfl)

end Aralia
